import Mathlib

/-!
Verification of the congressional-speech ingestion and classification
pipeline against its natural-language specification.

The Python sources are shallowly embedded as executable Lean definitions:

* `scrapeNewSessions.py` — text normalizer (`clean_speech_text`), metadata
  sanitizer (`_sanitize_metadata`), speaker resolver (member branch of
  `_fetch_single_speech`), rate-limited fetch client (`safe_get`), and the
  package orchestrator (`process_package`) including the
  `INSERT OR REPLACE` upsert and the `processed_packages` ledger write.
* `filterProcedure.py` — Stage A lexical purge (`run_keyword_purge_optimized`)
  and the Stage B zero-shot decision rule of
  `run_ai_classification_optimized`.
* `database.py` — `is_substantive` bigram-density failsafe and
  `get_partisan_share`.

Machine strings are `String`/`List Char`; Python float division is modelled
exactly over `ℚ`; fallible operations return `Option`.
-/

namespace CongressSpeech

/-! ## Python string primitives -/

/-- Characters treated as whitespace by Python's `str.strip`, `str.split`
and the regex class `\s` (ASCII range). -/
def pyIsSpace (c : Char) : Bool :=
  c = ' ' || c = '\t' || c = '\n' || c = '\x0d' || c = '\x0c' || c = '\x0b'

/-- Drop trailing whitespace from a character list (right half of
Python `str.strip`). -/
def dropTrailWs : List Char → List Char
  | [] => []
  | c :: cs =>
    let r := dropTrailWs cs
    if r = [] && pyIsSpace c then [] else c :: r

/-- Python `str.strip` on a character list. -/
def pyStripL (l : List Char) : List Char :=
  dropTrailWs (l.dropWhile pyIsSpace)

/-- Python `str.strip` on a string. -/
def pyStrip (s : String) : String :=
  ⟨pyStripL s.data⟩

/-- Python `str.lower` (ASCII letters; all source patterns are ASCII). -/
def lowerS (s : String) : String :=
  ⟨s.data.map Char.toLower⟩

/-- Helper for whitespace splitting: accumulate the current word (reversed). -/
def wordsAux : List Char → List Char → List (List Char)
  | [], acc => if acc = [] then [] else [acc.reverse]
  | c :: cs, acc =>
    if pyIsSpace c then
      if acc = [] then wordsAux cs [] else acc.reverse :: wordsAux cs []
    else wordsAux cs (c :: acc)

/-- Python `str.split()` with no argument: split on whitespace runs,
dropping empty pieces. -/
def pySplitWs (s : String) : List String :=
  (wordsAux s.data []).map (fun l => ⟨l⟩)

/-! ## Python values and the metadata sanitizer

`_sanitize_metadata` (scrapeNewSessions.py lines 121–138) receives
arbitrarily nested JSON-ish values: `None`, strings, numbers, lists, dicts.
-/

/-- A Python value as seen by the metadata sanitizer. -/
inductive PyVal where
  | none
  | str (s : String)
  | int (n : Int)
  | list (xs : List PyVal)
  | dict (kvs : List (String × PyVal))

/-- Python truthiness for the values above (`or` chains skip falsy values). -/
def truthy : PyVal → Bool
  | .none => false
  | .str s => s ≠ ""
  | .int n => n ≠ 0
  | .list xs => !xs.isEmpty
  | .dict kvs => !kvs.isEmpty

/-- Python `dict.get(k)`: the value at the first matching key, else `None`. -/
def dictGet (kvs : List (String × PyVal)) (k : String) : PyVal :=
  match kvs.find? (fun kv => kv.1 = k) with
  | some kv => kv.2
  | Option.none => .none

/-- Python `dict.get(k, default)`. -/
def dictGetD (kvs : List (String × PyVal)) (k : String) (d : PyVal) : PyVal :=
  match kvs.find? (fun kv => kv.1 = k) with
  | some kv => kv.2
  | Option.none => d

/-- Decimal digit character for a residue `k` (used when rendering
numbers, as Python `str(int)` does). -/
def digitChar (k : Nat) : Char :=
  if k = 0 then '0' else if k = 1 then '1' else if k = 2 then '2'
  else if k = 3 then '3' else if k = 4 then '4' else if k = 5 then '5'
  else if k = 6 then '6' else if k = 7 then '7' else if k = 8 then '8' else '9'

/-- Decimal digits of a positive number, most significant first; the fuel
bounds the recursion depth. -/
def natDigitsAux : Nat → Nat → List Char
  | 0, _ => []
  | fuel + 1, n =>
    if n = 0 then [] else natDigitsAux fuel (n / 10) ++ [digitChar (n % 10)]

/-- Python `str` of an integer, as a character list. -/
def intReprL (n : Int) : List Char :=
  if n < 0 then '-' :: natDigitsAux (n.natAbs + 1) n.natAbs
  else if n = 0 then ['0']
  else natDigitsAux (n.natAbs + 1) n.natAbs

/-- Escape one character for Python `repr` of a string with quote `q`. -/
def pyReprEsc (q : Char) (c : Char) : List Char :=
  if c = '\\' then ['\\', '\\']
  else if c = q then ['\\', q]
  else if c = '\n' then ['\\', 'n']
  else if c = '\t' then ['\\', 't']
  else if c = '\x0d' then ['\\', 'r']
  else [c]

/-- Python `repr` of a string: single-quoted unless the string holds a
single quote and no double quote. -/
def pyReprStr (s : String) : String :=
  let q : Char := if s.data.contains '\'' && !s.data.contains '"' then '"' else '\''
  ⟨q :: (s.data.flatMap (pyReprEsc q) ++ [q])⟩

/-- Intercalate ", " between rendered elements. -/
def commaJoin (l : List String) : String :=
  String.intercalate ", " l

mutual

/-- Python `repr` of a value (used by `str` on lists and dicts). -/
def pyRepr : PyVal → String
  | .none => "None"
  | .str s => pyReprStr s
  | .int n => ⟨intReprL n⟩
  | .list xs => "[" ++ commaJoin (pyReprList xs) ++ "]"
  | .dict kvs => "\x7b" ++ commaJoin (pyReprDict kvs) ++ "\x7d"

/-- repr of each list element. -/
def pyReprList : List PyVal → List String
  | [] => []
  | x :: xs => pyRepr x :: pyReprList xs

/-- repr of each dict entry as `'key': value`. -/
def pyReprDict : List (String × PyVal) → List String
  | [] => []
  | (k, v) :: kvs => (pyReprStr k ++ ": " ++ pyRepr v) :: pyReprDict kvs

end

/-- Python `str()` of a value. On a string it is the identity; on
containers it is the `repr` rendering. -/
def pyStr : PyVal → String
  | .str s => s
  | v => pyRepr v

/-- The `while isinstance(value, list)` loop of `_sanitize_metadata`:
repeatedly take the first element, or `None` when the list is empty. -/
def listUnwrap : PyVal → PyVal
  | .list [] => .none
  | .list (x :: _) => listUnwrap x
  | v => v

/-- Preferred keys probed by the sanitizer's `or` chain, in source order. -/
def sanitizeKeys : List String :=
  ["authority-fnf", "authority-lnf", "name", "#text", "value"]

/-- The `or` chain of `_sanitize_metadata` on a dict: first truthy value
among the preferred keys, else `str(value)` of the whole dict. -/
def orChain (kvs : List (String × PyVal)) : PyVal :=
  match sanitizeKeys.find? (fun k => truthy (dictGet kvs k)) with
  | some k => dictGet kvs k
  | Option.none => .str (pyRepr (.dict kvs))

/-- The resolved value of the sanitizer: list unwrapping followed by the
dict `or` chain. -/
def sanitizeResolve (v : PyVal) : PyVal :=
  match listUnwrap v with
  | .dict kvs => orChain kvs
  | w => w

/-- Embedding of `ModernCongressionalIngestor._sanitize_metadata`
(scrapeNewSessions.py lines 121–138): unwrap lists, resolve dicts via the
preferred-key `or` chain, return `"Unknown"` for `None`, else
`str(value).strip()`. -/
def _sanitize_metadata (v : PyVal) : String :=
  match sanitizeResolve v with
  | .none => "Unknown"
  | w => pyStrip (pyStr w)

/-! ## Text normalizer: `clean_speech_text`

Embedding of `ModernCongressionalIngestor.clean_speech_text`
(scrapeNewSessions.py lines 100–119).  Each `re.sub(pattern, "", text)`
call is embedded as a left-to-right scanner that removes every
non-overlapping leftmost match; the matchers below reproduce the
backtracking behaviour of the concrete patterns (each is deterministic,
as the optional pieces cannot be resatisfied once their greedy choice
fails).
-/

/-- Replace every whitespace run by a single `' '`
(`re.sub(r"\s+", " ", text)`); the single space is emitted at the end of
each run. -/
def wsCollapseL : List Char → List Char
  | [] => []
  | c :: cs =>
    if pyIsSpace c then
      match cs with
      | [] => [' ']
      | d :: _ => if pyIsSpace d then wsCollapseL cs else ' ' :: wsCollapseL cs
    else c :: wsCollapseL cs

/-- Step (a) of the normalizer: `re.sub(r"\s+", " ", raw_text).strip()`. -/
def wsNormalize (s : String) : String :=
  pyStrip ⟨wsCollapseL s.data⟩

/-- Every whitespace character of the list is the plain space. -/
def wsSingle (c : Char) : Bool :=
  !pyIsSpace c || c = ' '

/-- No two adjacent whitespace characters. -/
def noWsPair : List Char → Bool
  | c :: d :: rest => !(pyIsSpace c && pyIsSpace d) && noWsPair (d :: rest)
  | _ => true

/-- Case-insensitive literal match: consume the pattern characters from the
front of the text, returning the remainder. -/
def ciLit : List Char → List Char → Option (List Char)
  | [], s => some s
  | _ :: _, [] => Option.none
  | p :: ps, c :: cs => if c.toLower = p.toLower then ciLit ps cs else Option.none

/-- Maximal run of ASCII digits (`\d+` greedy): its length and the rest. -/
def digitRun : List Char → Nat × List Char
  | [] => (0, [])
  | c :: cs =>
    if c.isDigit then
      let r := digitRun cs
      (r.1 + 1, r.2)
    else (0, c :: cs)

/-- Maximal run of `[a-z]` (greedy `[a-z]+`): its length and the rest. -/
def lowerRun : List Char → Nat × List Char
  | [] => (0, [])
  | c :: cs =>
    if 'a' ≤ c && c ≤ 'z' then
      let r := lowerRun cs
      (r.1 + 1, r.2)
    else (0, c :: cs)

/-- Lazy `.*?\]`: scan to the first `']'`, failing at end of input or at a
newline (`.` does not match `'\n'`). -/
def lazyToRBracket : List Char → Option (List Char)
  | [] => Option.none
  | c :: cs => if c = ']' then some cs else if c = '\n' then Option.none else lazyToRBracket cs

/-- Matcher for `\[?Congressional Record[,]? Volume \d+.*?\]`
(IGNORECASE). -/
def matchVolHeader (s : List Char) : Option (List Char) :=
  let s1 := match s with
            | '[' :: rest => rest
            | _ => s
  match ciLit "congressional record".data s1 with
  | Option.none => Option.none
  | some s2 =>
    let s3 := match s2 with
              | ',' :: rest => rest
              | _ => s2
    match ciLit " volume ".data s3 with
    | Option.none => Option.none
    | some s4 =>
      let d := digitRun s4
      if d.1 = 0 then Option.none else lazyToRBracket d.2

/-- Matcher for `\[(Senate|House|Extensions of Remarks|Daily Digest)\]`
(IGNORECASE), alternatives tried in source order. -/
def matchChamberTag (s : List Char) : Option (List Char) :=
  match s with
  | '[' :: rest =>
    let tryWord := fun (w : String) =>
      match ciLit w.data rest with
      | some (']' :: r2) => some r2
      | _ => Option.none
    match tryWord "Senate" with
    | some r => some r
    | Option.none =>
      match tryWord "House" with
      | some r => some r
      | Option.none =>
        match tryWord "Extensions of Remarks" with
        | some r => some r
        | Option.none => tryWord "Daily Digest"
  | _ => Option.none

/-- One of `h`, `s`, `e` in either case (the class `[HSE]` under
IGNORECASE). -/
def isHSE (c : Char) : Bool :=
  c.toLower = 'h' || c.toLower = 's' || c.toLower = 'e'

/-- Matcher for `\[?Pages? [HSE]?\d+(-[HSE]?\d+)?\]?` (IGNORECASE). -/
def matchPageTag (s : List Char) : Option (List Char) :=
  let s1 := match s with
            | '[' :: rest => rest
            | _ => s
  match ciLit "page".data s1 with
  | Option.none => Option.none
  | some s2 =>
    let s3opt : Option (List Char) :=
      match s2 with
      | c :: rest =>
        if c.toLower = 's' then
          match rest with
          | ' ' :: r2 => some r2
          | _ => Option.none
        else if c = ' ' then some rest
        else Option.none
      | [] => Option.none
    match s3opt with
    | Option.none => Option.none
    | some s3 =>
      let s4 := match s3 with
                | c :: d :: rest => if isHSE c && d.isDigit then d :: rest else s3
                | _ => s3
      let dr := digitRun s4
      if dr.1 = 0 then Option.none
      else
        let s5 := dr.2
        let s6 := match s5 with
                  | '-' :: r1 =>
                    let r2 := match r1 with
                              | c :: d :: rest => if isHSE c && d.isDigit then d :: rest else r1
                              | _ => r1
                    let dr2 := digitRun r2
                    if dr2.1 = 0 then s5 else dr2.2
                  | _ => s5
        match s6 with
        | ']' :: r => some r
        | _ => some s6

/-- Matcher for `\([A-Z][a-z]+, [A-Z][a-z]+ \d{1,2}, \d{4}\)`
(case-sensitive date stamp). -/
def matchDateParen (s : List Char) : Option (List Char) :=
  match s with
  | '(' :: c1 :: rest =>
    if 'A' ≤ c1 && c1 ≤ 'Z' then
      let l1 := lowerRun rest
      if l1.1 = 0 then Option.none
      else
        match l1.2 with
        | ',' :: ' ' :: c2 :: r2 =>
          if 'A' ≤ c2 && c2 ≤ 'Z' then
            let l2 := lowerRun r2
            if l2.1 = 0 then Option.none
            else
              match l2.2 with
              | ' ' :: r4 =>
                let d1 := digitRun r4
                if d1.1 = 1 || d1.1 = 2 then
                  match d1.2 with
                  | ',' :: ' ' :: r6 =>
                    match r6 with
                    | a :: b :: c :: d :: ')' :: r7 =>
                      if a.isDigit && b.isDigit && c.isDigit && d.isDigit then some r7
                      else Option.none
                    | _ => Option.none
                  | _ => Option.none
                else Option.none
              | _ => Option.none
          else Option.none
        | _ => Option.none
    else Option.none
  | _ => Option.none

/-- Lazy `.*?gpo\.gov` (IGNORECASE): the shortest stretch of
non-newline characters followed by the literal `gpo.gov`. -/
def lazyToGpo : List Char → Option (List Char)
  | [] => Option.none
  | c :: cs =>
    match ciLit "gpo.gov".data (c :: cs) with
    | some r => some r
    | Option.none => if c = '\n' then Option.none else lazyToGpo cs

/-- Matcher for `From the Congressional Record Online.*?gpo\.gov`
(IGNORECASE). -/
def matchFooter (s : List Char) : Option (List Char) :=
  match ciLit "from the congressional record online".data s with
  | some r => lazyToGpo r
  | Option.none => Option.none

/-- Matcher for `\]\s*\]`. -/
def matchDoubleRBracket (s : List Char) : Option (List Char) :=
  match s with
  | ']' :: rest =>
    match rest.dropWhile pyIsSpace with
    | ']' :: r3 => some r3
    | _ => Option.none
  | _ => Option.none

/-- Driver for `re.sub(pattern, "", text)`: scan left to right, removing
each leftmost match and resuming after it (matches never overlap).  The
fuel is the input length; every accepted match consumes at least one
character, so this fuel always completes the scan. -/
def scanSub (m : List Char → Option (List Char)) : Nat → List Char → List Char
  | 0, s => s
  | _ + 1, [] => []
  | fuel + 1, c :: cs =>
    match m (c :: cs) with
    | some rest =>
      if rest.length < cs.length + 1 then scanSub m fuel rest
      else c :: scanSub m fuel cs
    | Option.none => c :: scanSub m fuel cs

/-- Run one substitution over a string. -/
def runSub (m : List Char → Option (List Char)) (s : String) : String :=
  ⟨scanSub m s.data.length s.data⟩

/-- Characters stripped by `re.sub(r"^[\s\]\)]+", "", text)`. -/
def isLeadJunk (c : Char) : Bool :=
  pyIsSpace c || c = ']' || c = ')'

/-- The anchored leading-junk removal of line 116. -/
def dropLeadJunk (s : String) : String :=
  ⟨s.data.dropWhile isLeadJunk⟩

/-- Embedding of `ModernCongressionalIngestor.clean_speech_text`
(scrapeNewSessions.py lines 100–119): whitespace collapse and strip,
header removals, footer removal, dangling-bracket fixes, final strip. -/
def clean_speech_text (raw : String) : String :=
  let t1 := wsNormalize raw
  let t2 := runSub matchVolHeader t1
  let t3 := runSub matchChamberTag t2
  let t4 := runSub matchPageTag t3
  let t5 := runSub matchDateParen t4
  let t6 := runSub matchFooter t5
  let t7 := pyStrip (dropLeadJunk t6)
  let t8 := runSub matchDoubleRBracket t7
  pyStrip t8

/-! ## Speaker resolver (member branch)

Embedding of the `if members:` branch of
`ModernCongressionalIngestor._fetch_single_speech`
(scrapeNewSessions.py lines 185–217): sanitize the first member's fields,
parse the numeric bioguide id, and split the display name.
-/

/-- The speaker fields produced for a granule. -/
structure SpeakerInfo where
  speaker_name : String
  party : String
  state : String
  lastname : String
  firstname : String
  bio_id_num : Int
  is_mapped : Nat
deriving DecidableEq, Repr

/-- Python `str.split(',')` on a character list: split at every comma,
keeping empty segments. -/
def splitOnComma : List Char → List (List Char)
  | [] => [[]]
  | c :: cs =>
    let r := splitOnComma cs
    if c = ',' then [] :: r
    else (c :: r.headD []) :: r.tail

/-- Python `str.split(',')` on a string. -/
def pySplitComma (s : String) : List String :=
  (splitOnComma s.data).map (fun l => ⟨l⟩)

/-- Python `int` on a non-empty all-digit string. -/
def digitsToNat (l : List Char) : Nat :=
  l.foldl (fun n c => n * 10 + (c.toNat - '0'.toNat)) 0

/-- Resolve speaker identity from the first member dict, mirroring lines
196–217 of `_fetch_single_speech` (the non-empty `members` path): the
sanitized name is split on commas and `parts[0]`/`parts[1]` are used as
last/first name; names without a comma are split on whitespace. -/
def resolveFromMember (m : List (String × PyVal)) : SpeakerInfo :=
  let speaker_name := _sanitize_metadata (dictGetD m "name" (.str "Unknown Speaker"))
  let party := _sanitize_metadata (dictGetD m "party" (.str "Unknown"))
  let state := _sanitize_metadata (dictGetD m "state" (.str "Unknown"))
  let bid := _sanitize_metadata (dictGetD m "bioguideId" (.str ""))
  let bio_id_num : Int :=
    if bid ≠ "" && bid ≠ "Unknown" then
      let digits := bid.data.filter Char.isDigit
      if digits ≠ [] then (digitsToNat digits : Int) else -1
    else -1
  if speaker_name.data.contains ',' then
    let parts := pySplitComma speaker_name
    let lastname := pyStrip (parts.getD 0 "")
    let firstname := if parts.length > 1 then pyStrip (parts.getD 1 "") else ""
    { speaker_name := pyStrip (firstname ++ " " ++ lastname)
      party := party, state := state
      lastname := lastname, firstname := firstname
      bio_id_num := bio_id_num, is_mapped := 1 }
  else
    let parts := pySplitWs speaker_name
    if parts.length > 1 then
      { speaker_name := speaker_name, party := party, state := state
        lastname := parts.getLastD "Unknown", firstname := parts.getD 0 "Unknown"
        bio_id_num := bio_id_num, is_mapped := 1 }
    else
      { speaker_name := speaker_name, party := party, state := state
        lastname := "Unknown", firstname := "Unknown"
        bio_id_num := bio_id_num, is_mapped := 1 }

/-- Modelled from the spec for comparison with `resolveFromMember`:
"split the display name on the *first* comma into (last, first) ... and
re-render the name as `"{first} {last}"`" — everything after the first
comma becomes the first name. -/
def specFirstCommaRender (name : String) : String :=
  let last := pyStrip ⟨name.data.takeWhile (· ≠ ',')⟩
  let first := pyStrip ⟨(name.data.dropWhile (· ≠ ',')).drop 1⟩
  pyStrip (first ++ " " ++ last)

/-! ## Rate-limited fetch client

Embedding of `ModernCongressionalIngestor.safe_get`
(scrapeNewSessions.py lines 80–98) over a sequence of attempt outcomes:
attempt `i` either yields an HTTP response with a status code and a body,
or raises an exception.
-/

/-- Outcome of one `session.get` attempt. -/
inductive AttemptOutcome where
  | resp (status : Nat) (body : Nat)
  | exc
deriving DecidableEq, Repr

/-- Trace of one `safe_get` call: final result, number of attempts made,
and the sleeps performed (in seconds, in order). -/
structure FetchTrace where
  result : Option Nat
  attempts : Nat
  sleeps : List Nat
deriving DecidableEq, Repr

/-- The `for i in range(3)` loop body of `safe_get`: 200 returns the body,
429 sleeps 2700 s and retries, 404 returns `None` immediately, any other
status or an exception sleeps 2 s and retries. -/
def safe_get_go (f : Nat → AttemptOutcome) (i : Nat) : Nat → FetchTrace
  | 0 => ⟨Option.none, 0, []⟩
  | fuel + 1 =>
    match f i with
    | .resp status body =>
      if status = 200 then ⟨some body, 1, []⟩
      else if status = 429 then
        let t := safe_get_go f (i + 1) fuel
        ⟨t.result, t.attempts + 1, 2700 :: t.sleeps⟩
      else if status = 404 then ⟨Option.none, 1, []⟩
      else
        let t := safe_get_go f (i + 1) fuel
        ⟨t.result, t.attempts + 1, 2 :: t.sleeps⟩
    | .exc =>
      let t := safe_get_go f (i + 1) fuel
      ⟨t.result, t.attempts + 1, 2 :: t.sleeps⟩

/-- `safe_get` with its fixed 3-attempt budget. -/
def safe_get (f : Nat → AttemptOutcome) : FetchTrace :=
  safe_get_go f 0 3

/-- An attempt outcome after which `safe_get` retries: any non-200,
non-404 status, or an exception. -/
def retriesAfter : AttemptOutcome → Bool
  | .resp status _ => status ≠ 200 && status ≠ 404
  | .exc => true

/-! ## Canonical store rows and the ingestion upsert

The `speeches` table (scrapeNewSessions.py lines 55–69) plus the
`is_procedure` column updated by filterProcedure.py; the ingestion
`INSERT OR REPLACE` (lines 308–314) names the 11 ingestion columns only,
so under SQLite replace semantics the new row takes the column default
(`NULL`) for `is_procedure`.
-/

/-- One row of the `speeches` table. -/
structure SpeechRow where
  speech_id : String
  speech : String
  date : Int
  speakerid : Int
  speaker : String
  is_mapped : Nat
  party : String
  state_x : String
  lastname : String
  firstname : String
  congress_session : String
  is_procedure : Option Nat
deriving DecidableEq, Repr

/-- The 11-field data tuple built by `_fetch_single_speech`
(lines 236–248) and written by the batched `INSERT OR REPLACE`. -/
structure SpeechData where
  speech_id : String
  speech : String
  date : Int
  speakerid : Int
  speaker : String
  is_mapped : Nat
  party : String
  state_x : String
  lastname : String
  firstname : String
  congress_session : String
deriving DecidableEq, Repr

/-- The row inserted for a data tuple: every column not named in the
`INSERT OR REPLACE` column list takes its default, so `is_procedure`
is `NULL`. -/
def rowOfData (d : SpeechData) : SpeechRow :=
  { speech_id := d.speech_id, speech := d.speech, date := d.date
    speakerid := d.speakerid, speaker := d.speaker, is_mapped := d.is_mapped
    party := d.party, state_x := d.state_x, lastname := d.lastname
    firstname := d.firstname, congress_session := d.congress_session
    is_procedure := Option.none }

/-- SQLite `INSERT OR REPLACE` keyed on `speech_id`: an existing row with
the same primary key is deleted and the freshly built row (with default
`NULL` `is_procedure`) replaces it; otherwise the new row is appended. -/
def insertOrReplace (t : List SpeechRow) (d : SpeechData) : List SpeechRow :=
  if t.any (fun r => r.speech_id = d.speech_id) then
    t.map (fun r => if r.speech_id = d.speech_id then rowOfData d else r)
  else t ++ [rowOfData d]

/-! ## Stage A: lexical purge

Embedding of `run_keyword_purge_optimized` (filterProcedure.py lines
36–93).  The keywords are joined *unescaped* into a regex alternation, so
the `.` in `mr. speaker` etc. matches any character except a newline.
-/

/-- `PROCEDURAL_KEYWORDS` (filterProcedure.py lines 18–24). -/
def PROCEDURAL_KEYWORDS : List String :=
  ["yield back", "yield the floor", "without objection", "so ordered",
   "move to adjourn", "clerk will report", "recognize the gentleman",
   "recognize the gentlewoman", "unanimous consent", "ask for the yeas and nays",
   "quorum call", "resume consideration", "motion to reconsider",
   "mr. speaker", "madam speaker", "mr. president", "madam president"]

/-- Match one keyword, taken as a regex literal in which `'.'` matches any
character except `'\n'`, against a prefix of the text. -/
def wildMatchAt : List Char → List Char → Bool
  | [], _ => true
  | _ :: _, [] => false
  | p :: ps, c :: cs =>
    (if p = '.' then c ≠ '\n' else p = c) && wildMatchAt ps cs

/-- The keyword pattern matches somewhere in the text. -/
def wildContains (pat : List Char) : List Char → Bool
  | [] => wildMatchAt pat []
  | c :: cs => wildMatchAt pat (c :: cs) || wildContains pat cs

/-- Literal (escaped) substring match at a position, for comparison. -/
def litMatchAt : List Char → List Char → Bool
  | [], _ => true
  | _ :: _, [] => false
  | p :: ps, c :: cs => p = c && litMatchAt ps cs

/-- Literal substring containment, for comparison. -/
def litContains (pat : List Char) : List Char → Bool
  | [] => litMatchAt pat []
  | c :: cs => litMatchAt pat (c :: cs) || litContains pat cs

/-- The Polars filter of the purge: the lowercased speech matches the
alternation `kw1|kw2|...` of the unescaped keywords. -/
def purgeMatch (speech : String) : Bool :=
  PROCEDURAL_KEYWORDS.any (fun kw => wildContains kw.data (lowerS speech).data)

/-- One run of `run_keyword_purge_optimized`: rows with `is_procedure IS
NULL` and `length(speech) < 500` whose text matches the keyword pattern
get `is_procedure = 1`; all other rows are untouched. -/
def run_keyword_purge (t : List SpeechRow) : List SpeechRow :=
  t.map (fun r =>
    if r.is_procedure = Option.none && r.speech.data.length < 500 && purgeMatch r.speech
    then { r with is_procedure := some 1 }
    else r)

/-! ## Stage B: zero-shot classification

Embedding of the decision rule and chunk loop of
`run_ai_classification_optimized` (filterProcedure.py lines 95–195).
The classifier itself is an oracle giving, per speech id, the top label
and its confidence score (modelled exactly over `ℚ`).
-/

/-- `CONFIDENCE_THRESHOLD = 0.70` (filterProcedure.py line 14). -/
def CONFIDENCE_THRESHOLD : ℚ := 70 / 100

/-- `CHUNK_SIZE = 50000` (filterProcedure.py line 12). -/
def CHUNK_SIZE : Nat := 50000

/-- The per-speech decision (lines 172–179): `is_procedure = 1` iff the
top label is "administrative procedure" and its score strictly exceeds
the threshold, else `0`. -/
def classifyDecision (top_label : String) (score : ℚ) : Nat :=
  if top_label = "administrative procedure" && score > CONFIDENCE_THRESHOLD then 1 else 0

/-- One chunk of the Stage B loop: fetch up to `CHUNK_SIZE` rows with
`is_procedure IS NULL`, classify them, and write the 0/1 results back by
`speech_id`. -/
def run_ai_chunk (oracle : String → String × ℚ) (t : List SpeechRow) : List SpeechRow :=
  let ids := ((t.filter (fun r => r.is_procedure = Option.none)).take CHUNK_SIZE).map
    (fun r => r.speech_id)
  t.map (fun r =>
    if ids.contains r.speech_id then
      { r with is_procedure := some (classifyDecision (oracle r.speech_id).1 (oracle r.speech_id).2) }
    else r)

/-- The `while True` chunk loop: repeat until a fetch returns zero rows.
The fuel bounds the number of chunks. -/
def run_ai_classification (oracle : String → String × ℚ) : Nat → List SpeechRow → List SpeechRow
  | 0, t => t
  | fuel + 1, t =>
    if (t.filter (fun r => r.is_procedure = Option.none)).isEmpty then t
    else run_ai_classification oracle fuel (run_ai_chunk oracle t)

/-- The full two-stage pipeline run: Stage A purge, then the Stage B
chunk loop. -/
def run_pipeline (oracle : String → String × ℚ) (fuel : Nat) (t : List SpeechRow) : List SpeechRow :=
  run_ai_classification oracle fuel (run_keyword_purge t)

/-! ## Bigram-density failsafe

Embedding of `DatabaseManager.is_substantive` (database.py lines
110–117).  The procedural lexicon is a parameter (it is loaded from
`filters.json` at startup); Python float division is modelled exactly
over `ℚ` via cross-multiplication.
-/

/-- Adjacent-word bigrams of a word list, each rendered `"w1 w2"`. -/
def bigramsOf : List String → List String
  | [] => []
  | [_] => []
  | w1 :: w2 :: ws => (w1 ++ " " ++ w2) :: bigramsOf (w2 :: ws)

/-- Embedding of `is_substantive`: empty text is not substantive; fewer
than 10 words is not substantive; otherwise substantive iff
`noise_count / len(words) < 0.30` — note the denominator is the *word*
count `len(words)`, as in the source. -/
def is_substantive (procedural_terms : List String) (text : String) : Bool :=
  if text = "" then false
  else
    let words := pySplitWs (lowerS text)
    if words.length < 10 then false
    else
      let bigrams := bigramsOf words
      let noise_count := (bigrams.filter (fun b => procedural_terms.contains b)).length
      10 * noise_count < 3 * words.length

/-- Modelled from the spec for comparison with `is_substantive`:
"a speech is substantive if fewer than 30% of its adjacent-word *bigrams*
appear in the procedural lexicon and it has at least 10 words" — the
denominator here is the bigram count. -/
def is_substantive_spec (procedural_terms : List String) (text : String) : Bool :=
  let words := pySplitWs (lowerS text)
  let bigrams := bigramsOf words
  let noise_count := (bigrams.filter (fun b => procedural_terms.contains b)).length
  decide (words.length ≥ 10) && decide (10 * noise_count < 3 * bigrams.length)

/-! ## Partisan-share query

Embedding of `DatabaseManager.get_partisan_share` (database.py lines
83–108): filter on `speech LIKE '%phrase%'`, `is_mapped = 1` and
`party IN ('D','R')`, group by `congress_session`, count parties, and
derive `rep_share = R_count / total`.
-/

/-- SQLite `LIKE '%phrase%'` for a wildcard-free phrase: case-insensitive
(ASCII) substring containment. -/
def likeMatch (phrase speech : String) : Bool :=
  litContains (lowerS phrase).data (lowerS speech).data

/-- The WHERE clause of `get_partisan_share`. -/
def partisanRowFilter (phrase : String) (r : SpeechRow) : Bool :=
  likeMatch phrase r.speech && r.is_mapped = 1 && (r.party = "D" || r.party = "R")

/-- One output row of the partisan-share query. -/
structure ShareRow where
  congress_session : String
  d_count : Nat
  r_count : Nat
  total : Nat
  rep_share : ℚ
deriving DecidableEq, Repr

/-- First-occurrence deduplication of the grouping key: skip keys already
seen. -/
def dedupKeysAux : List String → List String → List String
  | [], _ => []
  | k :: ks, seen =>
    if seen.contains k then dedupKeysAux ks seen
    else k :: dedupKeysAux ks (k :: seen)

/-- First-occurrence deduplication of the grouping key. -/
def dedupKeys (l : List String) : List String :=
  dedupKeysAux l []

/-- The output row for one `congress_session` group: `D`/`R` counts over
the filtered rows of that session, the group size as `total`, and
`rep_share = R_count / total`. -/
def partisanGroupRow (t : List SpeechRow) (phrase : String) (s : String) : ShareRow :=
  let g := (t.filter (partisanRowFilter phrase)).filter (fun r => r.congress_session = s)
  { congress_session := s
    d_count := (g.filter (fun r => r.party = "D")).length
    r_count := (g.filter (fun r => r.party = "R")).length
    total := g.length
    rep_share := ((g.filter (fun r => r.party = "R")).length : ℚ) / (g.length : ℚ) }

/-- Embedding of `get_partisan_share`: the filtered rows are grouped by
`congress_session`; each group contributes its `D`/`R` counts, the group
size as `total`, and `rep_share = R_count / total`. -/
def get_partisan_share (t : List SpeechRow) (phrase : String) : List ShareRow :=
  (dedupKeys ((t.filter (partisanRowFilter phrase)).map (fun r => r.congress_session))).map
    (partisanGroupRow t phrase)

/-! ## Package ingestion orchestrator

Embedding of `ModernCongressionalIngestor.process_package`
(scrapeNewSessions.py lines 251–323).  Granule handling
(`_fetch_single_speech`) is a parameter mapping each granule id to its
terminal outcome; page fetches go through an oracle standing for
`safe_get` on the granule-list URL, returning `none` on a failed fetch.
-/

/-- One granule-list page response: the granules of this page and the
server-reported total `count`. -/
structure PageResult where
  granules : List String
  count : Nat
deriving DecidableEq, Repr

/-- Terminal outcome of one granule (the return value of
`_fetch_single_speech`). -/
inductive GranuleOutcome where
  | success (d : SpeechData)
  | skip (reason : String)
  | error (msg : String)
deriving DecidableEq, Repr

/-- Result of one `process_package` run. -/
structure PackageRun where
  table : List SpeechRow
  attempted : List String
  saved : Nat
  skipped : Nat
  errors : Nat
  markedDone : Bool
deriving DecidableEq, Repr

/-- Process the granules of one page: collect outcomes, then batch-insert
every `SUCCESS` tuple via `INSERT OR REPLACE`. -/
def pageStep (handle : String → GranuleOutcome) (table : List SpeechRow)
    (grans : List String) : List SpeechRow × Nat × Nat × Nat :=
  let outcomes := grans.map handle
  let successes := outcomes.filterMap (fun o =>
    match o with
    | .success d => some d
    | _ => Option.none)
  let table2 := successes.foldl insertOrReplace table
  (table2, successes.length,
   (outcomes.filter (fun o => match o with | .skip _ => true | _ => false)).length,
   (outcomes.filter (fun o => match o with | .error _ => true | _ => false)).length)

/-- The `while True` pagination loop of `process_package`: fetch a page
(`None` breaks the loop), process its granules, stop when
`offset + len(granules) >= count`, else advance the offset by the page
size 100.  Returns the accumulated state; the fuel bounds the number of
pages. -/
def packageLoop (fetchPage : Nat → Option PageResult) (handle : String → GranuleOutcome) :
    Nat → Nat → List SpeechRow → List String × List SpeechRow × Nat × Nat × Nat
  | 0, _, table => ([], table, 0, 0, 0)
  | fuel + 1, offset, table =>
    match fetchPage offset with
    | Option.none => ([], table, 0, 0, 0)
    | some pr =>
      if pr.granules.isEmpty then ([], table, 0, 0, 0)
      else
        let step := pageStep handle table pr.granules
        if offset + pr.granules.length ≥ pr.count then
          (pr.granules, step.1, step.2.1, step.2.2.1, step.2.2.2)
        else
          let rest := packageLoop fetchPage handle fuel (offset + 100) step.1
          (pr.granules ++ rest.1, rest.2.1,
           step.2.1 + rest.2.2.1, step.2.2.1 + rest.2.2.2.1, step.2.2.2 + rest.2.2.2.2)

/-- Embedding of `process_package`: run the pagination loop and then —
unconditionally, on every exit path of the loop — record the package in
`processed_packages`. -/
def process_package (fetchPage : Nat → Option PageResult) (handle : String → GranuleOutcome)
    (fuel : Nat) (table : List SpeechRow) : PackageRun :=
  let r := packageLoop fetchPage handle fuel 0 table
  { table := r.2.1, attempted := r.1, saved := r.2.2.1, skipped := r.2.2.2.1
    errors := r.2.2.2.2, markedDone := true }

/-! ## Concrete example data used by the theorems -/

/-- A data tuple for speech id `s1`. -/
def exampleData : SpeechData :=
  { speech_id := "s1", speech := "the text", date := 20200105, speakerid := 123
    speaker := "Jane Doe", is_mapped := 1, party := "D", state_x := "CA"
    lastname := "Doe", firstname := "Jane", congress_session := "116" }

/-- A stored row for speech id `s1` that has already been classified. -/
def exampleClassifiedRow : SpeechRow :=
  { rowOfData exampleData with is_procedure := some 1 }

/-- A party-`p` row whose speech mentions `climate`, for the
partisan-share scenario. -/
def shareRow (p : String) (i : Nat) : SpeechRow :=
  { speech_id := "c" ++ toString p ++ toString i, speech := "on climate policy"
    date := 20200105, speakerid := 1, speaker := "X", is_mapped := 1, party := p
    state_x := "CA", lastname := "X", firstname := "X", congress_session := "116"
    is_procedure := some 0 }

/-- The 30-Democrat / 70-Republican table of the scenario. -/
def shareTable : List SpeechRow :=
  ((List.range 30).map (shareRow "D")) ++ ((List.range 70).map (shareRow "R"))

/-- The member dict of the end-to-end scenario. -/
def doeMember : List (String × PyVal) :=
  [("name", .str "Doe, Jane"), ("party", .str "D"), ("state", .str "CA"),
   ("bioguideId", .str "D000123")]

/-- A member dict whose display name holds two commas. -/
def doeJrMember : List (String × PyVal) :=
  [("name", .str "Doe, Jane, Jr."), ("party", .str "D"), ("state", .str "CA"),
   ("bioguideId", .str "D000123")]

/-- An unclassified row whose short speech holds the literal keyword
`yield back`. -/
def exampleYieldRow : SpeechRow :=
  { rowOfData exampleData with speech_id := "p2", speech := "i yield back my time" }

/-- An unclassified row whose short speech holds no procedural keyword as
a literal substring, yet matches the unescaped pattern (the `.` of
`mr. speaker` matches the `x`). -/
def exampleWildcardRow : SpeechRow :=
  { rowOfData exampleData with speech_id := "p3", speech := "It seems mrx speaker agrees" }

/-- Page oracle for the resume-ledger failing input: the first page holds
100 granules of a reported 150, and the second page fetch fails
(`safe_get` returned `None`). -/
def failingPages : Nat → Option PageResult :=
  fun offset =>
    if offset = 0 then some { granules := (List.range 100).map toString, count := 150 }
    else Option.none

/-- Granule handler for the resume-ledger failing input: every granule
succeeds with a fresh record. -/
def allSucceed : String → GranuleOutcome :=
  fun g => .success { exampleData with speech_id := g }

/-! ## Helper lemmas: stripping and character classes -/

theorem dropWhile_cases (p : Char → Bool) (l : List Char) :
    l.dropWhile p = [] ∨ ∃ c r, l.dropWhile p = c :: r ∧ p c = false := by
  induction l with
  | nil => exact Or.inl rfl
  | cons c cs ih =>
    by_cases h : p c
    · simpa [List.dropWhile_cons, h] using ih
    · exact Or.inr ⟨c, cs, by simp [List.dropWhile_cons, h], by simp [h]⟩

theorem dropTrailWs_cons_not_ws (c : Char) (cs : List Char) (h : pyIsSpace c = false) :
    dropTrailWs (c :: cs) = c :: dropTrailWs cs := by
  simp [dropTrailWs, h]

theorem dropTrailWs_idem (l : List Char) : dropTrailWs (dropTrailWs l) = dropTrailWs l := by
  induction l with
  | nil => rfl
  | cons c cs ih =>
    by_cases h1 : dropTrailWs cs = []
    · by_cases h2 : pyIsSpace c
      · simp [dropTrailWs, h1, h2]
      · simp [dropTrailWs, h1, h2, ih]
    · simp [dropTrailWs, h1, ih]

theorem pyStripL_idem (l : List Char) : pyStripL (pyStripL l) = pyStripL l := by
  unfold pyStripL
  rcases dropWhile_cases pyIsSpace l with h | ⟨c, r, h, hc⟩
  · simp [h, dropTrailWs]
  · rw [h, dropTrailWs_cons_not_ws c r hc, List.dropWhile_cons, hc]
    simp only [Bool.false_eq_true, if_false]
    rw [dropTrailWs_cons_not_ws c _ hc, dropTrailWs_idem]

theorem pyStripL_cons_not_ws (c : Char) (cs : List Char) (h : pyIsSpace c = false) :
    pyStripL (c :: cs) = c :: dropTrailWs cs := by
  unfold pyStripL
  rw [List.dropWhile_cons, h]
  simp only [Bool.false_eq_true, if_false]
  exact dropTrailWs_cons_not_ws c cs h

theorem pyStrip_ne_empty_of_head (c : Char) (cs : List Char) (h : pyIsSpace c = false) :
    pyStrip ⟨c :: cs⟩ ≠ "" := by
  unfold pyStrip
  rw [show ((⟨c :: cs⟩ : String).data) = c :: cs from rfl, pyStripL_cons_not_ws c cs h]
  intro hcontra
  have : (c :: dropTrailWs cs) = ("" : String).data := by
    rw [← hcontra]
  simp at this

theorem digitChar_not_ws (k : Nat) : pyIsSpace (digitChar k) = false := by
  unfold digitChar
  repeat' split
  all_goals decide

theorem natDigitsAux_chars (fuel n : Nat) :
    ∀ c ∈ natDigitsAux fuel n, ∃ k, c = digitChar k := by
  induction fuel generalizing n with
  | zero => intro c hc; simp [natDigitsAux] at hc
  | succ fuel ih =>
    intro c hc
    simp only [natDigitsAux] at hc
    split at hc
    · simp at hc
    · rcases List.mem_append.mp hc with h1 | h2
      · exact ih (n / 10) c h1
      · exact ⟨n % 10, by simpa using h2⟩

theorem intReprL_head (n : Int) :
    ∃ c r, intReprL n = c :: r ∧ pyIsSpace c = false := by
  unfold intReprL
  by_cases h1 : n < 0
  · exact ⟨'-', natDigitsAux (n.natAbs + 1) n.natAbs, by simp [h1], by decide⟩
  · by_cases h2 : n = 0
    · exact ⟨'0', [], by simp [h1, h2], by decide⟩
    · have hna : n.natAbs ≠ 0 := by
        intro hc
        exact h2 (Int.natAbs_eq_zero.mp hc)
      have hne : natDigitsAux (n.natAbs + 1) n.natAbs ≠ [] := by
        simp only [natDigitsAux, hna, if_false]
        simp
      rcases List.exists_cons_of_ne_nil hne with ⟨c, r, hcr⟩
      have hmem : c ∈ natDigitsAux (n.natAbs + 1) n.natAbs := by
        rw [hcr]; exact List.mem_cons_self c r
      rcases natDigitsAux_chars _ _ c hmem with ⟨k, hk⟩
      exact ⟨c, r, by simp [h1, h2, hcr], hk ▸ digitChar_not_ws k⟩

/-! ## Claim C4: sanitizer totality -/

theorem pyStr_resolved_ne_empty (w : PyVal) (hs : ∀ s, w ≠ .str s)
    (hn : w ≠ .none) : pyStrip (pyStr w) ≠ "" := by
  match w with
  | .none => exact absurd rfl hn
  | .str s => exact absurd rfl (hs s)
  | .int n =>
    rcases intReprL_head n with ⟨c, r, hcr, hc⟩
    show pyStrip ⟨intReprL n⟩ ≠ ""
    rw [hcr]
    exact pyStrip_ne_empty_of_head c r hc
  | .list xs =>
    show pyStrip ("[" ++ commaJoin (pyReprList xs) ++ "]") ≠ ""
    have hdata : ("[" ++ commaJoin (pyReprList xs) ++ "]").data
        = '[' :: ((commaJoin (pyReprList xs)).data ++ "]".data) := by
      rw [String.data_append, String.data_append]
      rfl
    have := pyStrip_ne_empty_of_head '[' ((commaJoin (pyReprList xs)).data ++ "]".data)
      (by decide)
    intro hcontra
    apply this
    unfold pyStrip at hcontra ⊢
    rw [show ((⟨'[' :: ((commaJoin (pyReprList xs)).data ++ "]".data)⟩ : String).data)
        = '[' :: ((commaJoin (pyReprList xs)).data ++ "]".data) from rfl]
    rw [← hdata]
    exact hcontra
  | .dict kvs =>
    show pyStrip ("\x7b" ++ commaJoin (pyReprDict kvs) ++ "\x7d") ≠ ""
    have hdata : ("\x7b" ++ commaJoin (pyReprDict kvs) ++ "\x7d").data
        = '\x7b' :: ((commaJoin (pyReprDict kvs)).data ++ "\x7d".data) := by
      rw [String.data_append, String.data_append]
      rfl
    have := pyStrip_ne_empty_of_head '\x7b'
      ((commaJoin (pyReprDict kvs)).data ++ "\x7d".data) (by decide)
    intro hcontra
    apply this
    unfold pyStrip at hcontra ⊢
    rw [show ((⟨'\x7b' :: ((commaJoin (pyReprDict kvs)).data ++ "\x7d".data)⟩ : String).data)
        = '\x7b' :: ((commaJoin (pyReprDict kvs)).data ++ "\x7d".data) from rfl]
    rw [← hdata]
    exact hcontra

/-- Claim C4, counterexample: `_sanitize_metadata` applied to the plain
string `""` (and likewise to a whitespace-only string) returns the empty
string, so the sanitizer does *not* return a non-empty string on every
input. -/
theorem sanitize_blank_string_empty :
    _sanitize_metadata (.str "") = "" ∧
    _sanitize_metadata (.str "   ") = "" ∧
    (_sanitize_metadata (.str "")).length = 0 := by
  decide

/-- Claim C4, amended: `_sanitize_metadata` is total — on every input it
returns a string without raising — and returns `"Unknown"` whenever the
input bottoms out to `None` (`None` itself, or arbitrarily nested empty
lists); the result is non-empty except when the resolved value is a
string whose trim is empty (for example `""` or whitespace only). -/
theorem sanitize_totality_amended :
    (∀ v : PyVal, _sanitize_metadata v = "Unknown" ∨ _sanitize_metadata v ≠ "" ∨
      ∃ s, sanitizeResolve v = .str s ∧ pyStrip s = "") ∧
    _sanitize_metadata .none = "Unknown" ∧
    _sanitize_metadata (.list []) = "Unknown" ∧
    _sanitize_metadata (.list [.list [.none]]) = "Unknown" ∧
    _sanitize_metadata (.str "  Doe, Jane  ") = "Doe, Jane" ∧
    _sanitize_metadata (.dict [("name", .str "Doe, Jane")]) = "Doe, Jane" := by
  refine ⟨fun v => ?_, by decide, by decide, by decide, by decide, by decide⟩
  unfold _sanitize_metadata
  cases hw : sanitizeResolve v with
  | none => exact Or.inl rfl
  | str s =>
    by_cases hs : pyStrip s = ""
    · exact Or.inr (Or.inr ⟨s, rfl, hs⟩)
    · exact Or.inr (Or.inl (by simpa [pyStr] using hs))
  | int n => exact Or.inr (Or.inl (pyStr_resolved_ne_empty (.int n) (by intro s h; cases h) (by intro h; cases h)))
  | list xs => exact Or.inr (Or.inl (pyStr_resolved_ne_empty (.list xs) (by intro s h; cases h) (by intro h; cases h)))
  | dict kvs => exact Or.inr (Or.inl (pyStr_resolved_ne_empty (.dict kvs) (by intro s h; cases h) (by intro h; cases h)))

/-! ## Claim C5: bigram-density failsafe -/

/-- Claim C5, counterexample: on an 11-word text whose bigrams hit the
lexicon 3 times, the code classifies it substantive (3/11 < 0.30) while
the claimed bigram-count denominator would not (3/10 ≥ 0.30): the claimed
iff fails. -/
theorem bigram_density_wrong_denominator :
    is_substantive ["a b"] "a b a b a b x y z w v" = true ∧
    is_substantive_spec ["a b"] "a b a b a b x y z w v" = false ∧
    (pySplitWs (lowerS "a b a b a b x y z w v")).length = 11 ∧
    ((bigramsOf (pySplitWs (lowerS "a b a b a b x y z w v"))).filter
      (fun b => (["a b"] : List String).contains b)).length = 3 := by
  decide

/-- Claim C5, amended: `is_substantive` holds iff the speech has at least
10 words and the lexicon hits among its adjacent-word bigrams, divided by
the *word count* (not the bigram count), stay below 0.30; division is
stated by cross-multiplication. -/
theorem bigram_density_word_denominator :
    (∀ (terms : List String) (text : String),
      is_substantive terms text = true ↔
        (10 ≤ (pySplitWs (lowerS text)).length ∧
         10 * ((bigramsOf (pySplitWs (lowerS text))).filter
           (fun b => terms.contains b)).length < 3 * (pySplitWs (lowerS text)).length)) ∧
    is_substantive ["a b"] "a b c d e f g h i j k" = true ∧
    is_substantive ["a b"] "" = false := by
  refine ⟨fun terms text => ?_, by decide, by decide⟩
  by_cases h0 : text = ""
  · subst h0
    constructor
    · intro h; simp [is_substantive] at h
    · intro h; exact absurd h.1 (by decide)
  · unfold is_substantive
    rw [if_neg h0]
    by_cases h1 : (pySplitWs (lowerS text)).length < 10
    · rw [if_pos h1]
      constructor
      · intro h; exact absurd h (by decide)
      · intro h; omega
    · rw [if_neg h1]
      constructor
      · intro h
        exact ⟨by omega, by exact_mod_cast of_decide_eq_true h⟩
      · intro h
        exact decide_eq_true h.2

/-! ## Claim C7: speaker resolver comma split -/

/-- Claim C7, counterexample: for the display name `"Doe, Jane, Jr."`
(more than one comma) the resolver renders `"Jane Doe"` — it uses only the
segment between the first and second commas — while splitting on the
*first* comma, as claimed, would render `"Jane, Jr. Doe"`. -/
theorem comma_name_split_counterexample :
    _sanitize_metadata (dictGetD doeJrMember "name" (.str "Unknown Speaker"))
      = "Doe, Jane, Jr." ∧
    (resolveFromMember doeJrMember).speaker_name = "Jane Doe" ∧
    specFirstCommaRender "Doe, Jane, Jr." = "Jane, Jr. Doe" ∧
    (resolveFromMember doeJrMember).speaker_name ≠ specFirstCommaRender "Doe, Jane, Jr." := by
  decide

/-- Claim C7, amended: when the sanitized display name contains a comma
the resolver splits on *every* comma and keeps only the first two
segments — last name is the segment before the first comma, first name
the segment between the first and second commas (later segments are
discarded) — and renders `"{first} {last}"`; the single-comma end-to-end
scenario (`"Doe, Jane"`, party `D`, state `CA`, bioguide `D000123`)
yields exactly the claimed record. -/
theorem comma_name_split_amended :
    (∀ m : List (String × PyVal),
      (_sanitize_metadata (dictGetD m "name" (.str "Unknown Speaker"))).data.contains ','
        = true →
      (resolveFromMember m).lastname =
        pyStrip ((pySplitComma (_sanitize_metadata (dictGetD m "name"
          (.str "Unknown Speaker")))).getD 0 "") ∧
      (resolveFromMember m).firstname =
        (if (pySplitComma (_sanitize_metadata (dictGetD m "name"
              (.str "Unknown Speaker")))).length > 1 then
          pyStrip ((pySplitComma (_sanitize_metadata (dictGetD m "name"
            (.str "Unknown Speaker")))).getD 1 "")
        else "") ∧
      (resolveFromMember m).speaker_name =
        pyStrip ((resolveFromMember m).firstname ++ " " ++ (resolveFromMember m).lastname)) ∧
    resolveFromMember doeMember =
      { speaker_name := "Jane Doe", party := "D", state := "CA", lastname := "Doe"
        firstname := "Jane", bio_id_num := 123, is_mapped := 1 } := by
  refine ⟨fun m hm => ?_, by decide⟩
  unfold resolveFromMember
  rw [if_pos hm]
  refine ⟨rfl, rfl, rfl⟩

/-- Witness for the amended comma-split theorem: its general part applied
to the two-comma member, and its scenario part. -/
theorem comma_name_split_amended_witness :
    (resolveFromMember doeJrMember).lastname =
      pyStrip ((pySplitComma (_sanitize_metadata (dictGetD doeJrMember "name"
        (.str "Unknown Speaker")))).getD 0 "") ∧
    resolveFromMember doeMember =
      { speaker_name := "Jane Doe", party := "D", state := "CA", lastname := "Doe"
        firstname := "Jane", bio_id_num := 123, is_mapped := 1 } :=
  ⟨(comma_name_split_amended.1 doeJrMember (by decide)).1, comma_name_split_amended.2⟩

/-! ## Claim C8: Stage B confidence threshold -/

/-- Claim C8: the Stage B decision sets `is_procedure = 1` iff the top
label is "administrative procedure" and its confidence strictly exceeds
0.70, and sets `0` otherwise; at confidence exactly 0.70 the result is 0
and at 0.71 it is 1. -/
theorem stage_b_threshold_boundary :
    (∀ (label : String) (score : ℚ),
      (classifyDecision label score = 1 ↔
        (label = "administrative procedure" ∧ CONFIDENCE_THRESHOLD < score)) ∧
      (classifyDecision label score = 0 ↔
        ¬(label = "administrative procedure" ∧ CONFIDENCE_THRESHOLD < score))) ∧
    classifyDecision "administrative procedure" (70 / 100) = 0 ∧
    classifyDecision "administrative procedure" (71 / 100) = 1 ∧
    classifyDecision "political debate" (99 / 100) = 0 := by
  refine ⟨fun label score => ?_,
    by norm_num [classifyDecision, CONFIDENCE_THRESHOLD],
    by norm_num [classifyDecision, CONFIDENCE_THRESHOLD],
    by
      have h : ¬(("political debate" : String) = "administrative procedure") := by decide
      simp [classifyDecision, h]⟩
  unfold classifyDecision
  by_cases h1 : label = "administrative procedure"
  · by_cases h2 : CONFIDENCE_THRESHOLD < score
    · simp [h1, h2]
    · simp [h1, h2]
  · simp [h1]

/-! ## Claim C1: resume ledger on a failed page fetch -/

/-- Claim C1: `process_package` records the package in
`processed_packages` on every exit path of its pagination loop; in the
failing input below the first page reports 150 granules, delivers 100,
and the fetch of the next page returns `None` — the run still marks the
package done with only 100 granules attempted. -/
theorem package_marked_done_despite_failed_page :
    (process_package failingPages allSucceed 5 []).markedDone = true ∧
    (process_package failingPages allSucceed 5 []).attempted.length = 100 ∧
    ((failingPages 0).map PageResult.count) = some 150 ∧
    failingPages 100 = Option.none ∧
    (process_package failingPages allSucceed 5 []).saved = 100 := by
  decide

/-! ## Claim C6: rate-limited fetch client -/

theorem safe_get_go_attempts_le (f : Nat → AttemptOutcome) :
    ∀ fuel i, (safe_get_go f i fuel).attempts ≤ fuel := by
  intro fuel
  induction fuel with
  | zero => intro i; simp [safe_get_go]
  | succ fuel ih =>
    intro i
    simp only [safe_get_go]
    cases hf : f i with
    | resp status body =>
      by_cases h200 : status = 200
      · simp [h200]
      · by_cases h429 : status = 429
        · simpa [h200, h429] using ih (i + 1)
        · by_cases h404 : status = 404
          · simp [h200, h429, h404]
          · simpa [h200, h429, h404] using ih (i + 1)
    | exc => simpa using ih (i + 1)

theorem safe_get_go_404 (f : Nat → AttemptOutcome) (fuel i b : Nat)
    (h : f i = .resp 404 b) :
    safe_get_go f i (fuel + 1) = ⟨Option.none, 1, []⟩ := by
  simp [safe_get_go, h]

theorem safe_get_go_retry_step (f : Nat → AttemptOutcome) (fuel i : Nat)
    (h : retriesAfter (f i) = true) :
    (safe_get_go f i (fuel + 1)).result = (safe_get_go f (i + 1) fuel).result ∧
    (safe_get_go f i (fuel + 1)).attempts = (safe_get_go f (i + 1) fuel).attempts + 1 := by
  simp only [safe_get_go]
  cases hf : f i with
  | resp status body =>
    rw [hf] at h
    simp only [retriesAfter, Bool.and_eq_true, decide_eq_true_eq] at h
    by_cases h429 : status = 429
    · simp [h.1, h429]
    · simp [h.1, h429, h.2]
  | exc => simp

theorem safe_get_go_result_some (f : Nat → AttemptOutcome) :
    ∀ fuel i r, (safe_get_go f i fuel).result = some r →
      ∃ k, k < fuel ∧ f (i + k) = .resp 200 r ∧
        ∀ j, j < k → retriesAfter (f (i + j)) = true := by
  intro fuel
  induction fuel with
  | zero => intro i r h; simp [safe_get_go] at h
  | succ fuel ih =>
    intro i r h
    by_cases hstep : retriesAfter (f i) = true
    · have hres := (safe_get_go_retry_step f fuel i hstep).1
      rw [hres] at h
      rcases ih (i + 1) r h with ⟨k, hk, hfk, hprev⟩
      refine ⟨k + 1, by omega, by rw [show i + (k + 1) = (i + 1) + k by omega]; exact hfk, ?_⟩
      intro j hj
      match j with
      | 0 => simpa using hstep
      | j + 1 =>
        rw [show i + (j + 1) = (i + 1) + j by omega]
        exact hprev j (by omega)
    · cases hf : f i with
      | resp status body =>
        rw [hf] at hstep
        simp only [retriesAfter, Bool.and_eq_true, decide_eq_true_eq] at hstep
        by_cases h200 : status = 200
        · subst h200
          have hbody : some body = some r := by
            simpa [safe_get_go, hf] using h
          exact ⟨0, by omega, by simpa [hf] using hbody, fun j hj => by omega⟩
        · by_cases h404 : status = 404
          · subst h404
            rw [safe_get_go_404 f fuel i body hf] at h
            cases h
          · exact absurd ⟨h200, h404⟩ hstep
      | exc => rw [hf] at hstep; simp [retriesAfter] at hstep

theorem safe_get_go_exhaust (f : Nat → AttemptOutcome) :
    ∀ fuel i, (∀ j, j < fuel → retriesAfter (f (i + j)) = true) →
      (safe_get_go f i fuel).result = Option.none ∧
      (safe_get_go f i fuel).attempts = fuel := by
  intro fuel
  induction fuel with
  | zero => intro i _; simp [safe_get_go]
  | succ fuel ih =>
    intro i h
    have h0 : retriesAfter (f i) = true := by simpa using h 0 (by omega)
    have hrest := ih (i + 1) (fun j hj => by
      have := h (j + 1) (by omega)
      rwa [show i + (j + 1) = (i + 1) + j by omega] at this)
    have hstep := safe_get_go_retry_step f fuel i h0
    exact ⟨hstep.1.trans hrest.1, by rw [hstep.2, hrest.2]⟩

/-- Claim C6: per `safe_get` call, at most 3 attempts are made; a 404
returns `None` immediately (also mid-budget after retryable outcomes);
a 429 sleeps 2700 s and retries within the same budget; any other
non-200 status or an exception sleeps 2 s and retries; a body is returned
only when some attempt returned status 200 after only retryable outcomes;
and when all 3 attempts are retryable the call returns `None` after
exactly 3 attempts. -/
theorem safe_get_retry_contract :
    (∀ f, (safe_get f).attempts ≤ 3) ∧
    (∀ f b, f 0 = .resp 404 b → safe_get f = ⟨Option.none, 1, []⟩) ∧
    (∀ f b, retriesAfter (f 0) = true → f 1 = .resp 404 b →
      (safe_get f).result = Option.none ∧ (safe_get f).attempts = 2) ∧
    (∀ f b r, f 0 = .resp 429 b → f 1 = .resp 200 r →
      safe_get f = ⟨some r, 2, [2700]⟩) ∧
    (∀ f s b r, f 0 = .resp s b → s ≠ 200 → s ≠ 429 → s ≠ 404 →
      f 1 = .resp 200 r → safe_get f = ⟨some r, 2, [2]⟩) ∧
    (∀ f r, f 0 = .exc → f 1 = .resp 200 r → safe_get f = ⟨some r, 2, [2]⟩) ∧
    (∀ f r, (safe_get f).result = some r →
      ∃ k, k < 3 ∧ f k = .resp 200 r ∧ ∀ j, j < k → retriesAfter (f j) = true) ∧
    (∀ f, (∀ j, j < 3 → retriesAfter (f j) = true) →
      (safe_get f).result = Option.none ∧ (safe_get f).attempts = 3) := by
  refine ⟨fun f => safe_get_go_attempts_le f 3 0,
    fun f b h => safe_get_go_404 f 2 0 b h,
    fun f b h0 h1 => ?_, fun f b r h0 h1 => ?_,
    fun f s b r h0 h200 h429 h404 h1 => ?_, fun f r h0 h1 => ?_,
    fun f r h => ?_, fun f h => ?_⟩
  · have hstep := safe_get_go_retry_step f 2 0 h0
    have h404 := safe_get_go_404 f 1 1 b h1
    norm_num at hstep h404
    constructor
    · show (safe_get_go f 0 3).result = Option.none
      rw [hstep.1, h404]
    · show (safe_get_go f 0 3).attempts = 2
      rw [hstep.2, h404]
  · show safe_get_go f 0 3 = _
    simp [safe_get_go, h0, h1]
  · show safe_get_go f 0 3 = _
    simp [safe_get_go, h0, h1, h200, h429, h404]
  · show safe_get_go f 0 3 = _
    simp [safe_get_go, h0, h1]
  · simpa using safe_get_go_result_some f 3 0 r h
  · simpa using safe_get_go_exhaust f 3 0 (by simpa using h)

/-- Witness for the fetch-client contract: a 429-then-200 call, an
immediate 404, and an all-exception call, each fed to the contract. -/
theorem safe_get_retry_contract_witness :
    safe_get (fun i => if i = 0 then .resp 429 0 else .resp 200 7) = ⟨some 7, 2, [2700]⟩ ∧
    safe_get (fun _ => .resp 404 5) = ⟨Option.none, 1, []⟩ ∧
    ((safe_get (fun _ => .exc)).result = Option.none ∧
      (safe_get (fun _ => .exc)).attempts = 3) :=
  ⟨safe_get_retry_contract.2.2.2.1 _ 0 7 (by decide) (by decide),
   safe_get_retry_contract.2.1 _ 5 (by decide),
   safe_get_retry_contract.2.2.2.2.2.2.2 _ (fun j _ => by decide)⟩

/-! ## Claim C10: unescaped keyword purge -/

theorem wildMatchAt_of_lit (pat : List Char) :
    ∀ s, litMatchAt pat s = true → wildMatchAt pat s = true := by
  induction pat with
  | nil => intro s _; rfl
  | cons p ps ih =>
    intro s h
    cases s with
    | nil => simp [litMatchAt] at h
    | cons c cs =>
      simp only [litMatchAt, Bool.and_eq_true, decide_eq_true_eq] at h
      simp only [wildMatchAt, Bool.and_eq_true]
      refine ⟨?_, ih cs h.2⟩
      by_cases hd : p = '.'
      · subst hd
        rw [← h.1]
        decide
      · rw [← h.1]
        simp [hd]

theorem wildContains_of_lit (pat : List Char) :
    ∀ l, litContains pat l = true → wildContains pat l = true := by
  intro l
  induction l with
  | nil =>
    intro h
    simpa [litContains, wildContains] using
      wildMatchAt_of_lit pat [] (by simpa [litContains] using h)
  | cons c cs ih =>
    intro h
    simp only [litContains, Bool.or_eq_true] at h
    rcases h with h | h
    · simp [wildContains, wildMatchAt_of_lit _ _ h]
    · simp [wildContains, ih h]

/-- Claim C10: the Stage A purge matches the lowercased speech against the
unescaped alternation of `PROCEDURAL_KEYWORDS`, so (i) any speech holding
a keyword as a literal case-insensitive substring matches and — when
unclassified and under 500 characters — is set to `is_procedure = 1`, and
(ii) the speech `"It seems mrx speaker agrees"`, which holds *no* keyword
literally, also matches (the unescaped `.` of `mr. speaker` accepts the
`x`) and is likewise set to `is_procedure = 1`. -/
theorem keyword_purge_wildcard :
    (∀ (kw text : String), kw ∈ PROCEDURAL_KEYWORDS →
      litContains kw.data (lowerS text).data = true → purgeMatch text = true) ∧
    (∀ (t : List SpeechRow) (r : SpeechRow) (kw : String), r ∈ t →
      r.is_procedure = Option.none → r.speech.data.length < 500 →
      kw ∈ PROCEDURAL_KEYWORDS → litContains kw.data (lowerS r.speech).data = true →
      { r with is_procedure := some 1 } ∈ run_keyword_purge t) ∧
    (purgeMatch "It seems mrx speaker agrees" = true ∧
      ∀ kw ∈ PROCEDURAL_KEYWORDS,
        litContains kw.data (lowerS "It seems mrx speaker agrees").data = false) ∧
    run_keyword_purge [exampleWildcardRow] =
      [{ exampleWildcardRow with is_procedure := some 1 }] := by
  have hlit : ∀ (kw text : String), kw ∈ PROCEDURAL_KEYWORDS →
      litContains kw.data (lowerS text).data = true → purgeMatch text = true := by
    intro kw text hkw h
    unfold purgeMatch
    rw [List.any_eq_true]
    exact ⟨kw, hkw, wildContains_of_lit _ _ h⟩
  refine ⟨hlit, ?_, by decide, by decide⟩
  intro t r kw hr hnull hlen hkw hsub
  have hmatch := hlit kw r.speech hkw hsub
  have hfun :
      (fun r : SpeechRow =>
        if r.is_procedure = Option.none && r.speech.data.length < 500 && purgeMatch r.speech
        then { r with is_procedure := some 1 } else r) r
      = { r with is_procedure := some 1 } := by
    have hlen2 : r.speech.length < 500 := hlen
    simp [hnull, hlen2, hmatch]
  unfold run_keyword_purge
  exact hfun ▸ List.mem_map_of_mem _ hr

/-- Witness for the purge theorem: the literal keyword `yield back` in a
short unclassified speech makes it match and get flagged. -/
theorem keyword_purge_wildcard_witness :
    purgeMatch "i yield back my time" = true ∧
    { exampleYieldRow with is_procedure := some 1 } ∈ run_keyword_purge [exampleYieldRow] :=
  ⟨keyword_purge_wildcard.1 "yield back" "i yield back my time" (by decide) (by decide),
   keyword_purge_wildcard.2.1 [exampleYieldRow] exampleYieldRow "yield back"
     (List.mem_singleton.mpr rfl) (by decide) (by decide) (by decide) (by decide)⟩

/-! ## Claim C2: monotonicity of `is_procedure` -/

theorem purge_map_ids (t : List SpeechRow) :
    (run_keyword_purge t).map (fun r => r.speech_id) = t.map (fun r => r.speech_id) := by
  unfold run_keyword_purge
  rw [List.map_map]
  apply List.map_congr_left
  intro r _
  simp only [Function.comp]
  split <;> rfl

theorem chunk_map_ids (o : String → String × ℚ) (t : List SpeechRow) :
    (run_ai_chunk o t).map (fun r => r.speech_id) = t.map (fun r => r.speech_id) := by
  unfold run_ai_chunk
  rw [List.map_map]
  apply List.map_congr_left
  intro r _
  simp only [Function.comp]
  split <;> rfl

theorem mem_purge_of_classified (t : List SpeechRow) (r : SpeechRow) (b : Nat)
    (hr : r ∈ t) (hb : r.is_procedure = some b) : r ∈ run_keyword_purge t := by
  unfold run_keyword_purge
  have hfix :
      (fun r : SpeechRow =>
        if r.is_procedure = Option.none && r.speech.data.length < 500 && purgeMatch r.speech
        then { r with is_procedure := some 1 } else r) r = r := by
    simp [hb]
  exact hfix ▸ List.mem_map_of_mem _ hr

theorem mem_chunk_of_classified (o : String → String × ℚ) (t : List SpeechRow) (r : SpeechRow)
    (b : Nat) (hN : (t.map (fun r => r.speech_id)).Nodup) (hr : r ∈ t)
    (hb : r.is_procedure = some b) : r ∈ run_ai_chunk o t := by
  unfold run_ai_chunk
  have hnotmem : r.speech_id ∉
      List.take CHUNK_SIZE ((t.filter (fun r => r.is_procedure = Option.none)).map
        (fun r => r.speech_id)) := by
    intro hmem
    rcases List.mem_map.mp (List.mem_of_mem_take hmem) with ⟨r2, hr2f, hid⟩
    have hr2t : r2 ∈ t := List.mem_of_mem_filter hr2f
    have hr2null : r2.is_procedure = Option.none := by
      simpa using List.of_mem_filter hr2f
    have heq : r2 = r := List.inj_on_of_nodup_map hN hr2t hr hid
    rw [heq, hb] at hr2null
    cases hr2null
  have hfix :
      (fun r : SpeechRow =>
        if (((t.filter (fun r => r.is_procedure = Option.none)).take CHUNK_SIZE).map
            (fun r => r.speech_id)).contains r.speech_id
        then { r with
          is_procedure := some (classifyDecision (o r.speech_id).1 (o r.speech_id).2) }
        else r) r = r := by
    show (if (((t.filter (fun r => r.is_procedure = Option.none)).take CHUNK_SIZE).map
        (fun r => r.speech_id)).contains r.speech_id
      then { r with
        is_procedure := some (classifyDecision (o r.speech_id).1 (o r.speech_id).2) }
      else r) = r
    split
    · rename_i hc
      exact absurd (by simpa using hc) hnotmem
    · rfl
  exact hfix ▸ List.mem_map_of_mem _ hr

theorem mem_ai_of_classified (o : String → String × ℚ) :
    ∀ (fuel : Nat) (t : List SpeechRow) (r : SpeechRow) (b : Nat),
      (t.map (fun r => r.speech_id)).Nodup → r ∈ t → r.is_procedure = some b →
      r ∈ run_ai_classification o fuel t := by
  intro fuel
  induction fuel with
  | zero =>
    intro t r b _ hr _
    simpa [run_ai_classification] using hr
  | succ fuel ih =>
    intro t r b hN hr hb
    unfold run_ai_classification
    split
    · exact hr
    · exact ih (run_ai_chunk o t) r b (by rw [chunk_map_ids]; exact hN)
        (mem_chunk_of_classified o t r b hN hr hb) hb

/-- Claim C2, counterexample: re-ingesting speech id `s1` through the
`INSERT OR REPLACE` upsert replaces an already-classified row
(`is_procedure = 1`) by a fresh row whose `is_procedure` is `NULL` — the
upsert *does* write `NULL` over a non-null value. -/
theorem upsert_overwrites_classification :
    exampleClassifiedRow.is_procedure = some 1 ∧
    exampleClassifiedRow.speech_id = exampleData.speech_id ∧
    insertOrReplace [exampleClassifiedRow] exampleData = [rowOfData exampleData] ∧
    (rowOfData exampleData).is_procedure = Option.none := by
  decide

/-- Claim C2, amended: the two-stage classification pipeline never
touches a non-null `is_procedure` — for a table with unique speech ids,
any already-classified row survives the purge and every AI chunk
unchanged — but the ingestion upsert does not preserve it: after
`INSERT OR REPLACE` of a data tuple, the row carrying that speech id has
`is_procedure = NULL`. -/
theorem classification_monotonic_amended :
    (∀ (oracle : String → String × ℚ) (fuel : Nat) (t : List SpeechRow)
        (r : SpeechRow) (b : Nat),
      (t.map (fun r => r.speech_id)).Nodup → r ∈ t → r.is_procedure = some b →
      r ∈ run_pipeline oracle fuel t) ∧
    (∀ (t : List SpeechRow) (d : SpeechData) (r2 : SpeechRow),
      r2 ∈ insertOrReplace t d → r2.speech_id = d.speech_id →
      r2.is_procedure = Option.none) := by
  constructor
  · intro oracle fuel t r b hN hr hb
    unfold run_pipeline
    exact mem_ai_of_classified oracle fuel _ r b (by rw [purge_map_ids]; exact hN)
      (mem_purge_of_classified t r b hr hb) hb
  · intro t d r2 hmem hid
    unfold insertOrReplace at hmem
    split at hmem
    · rcases List.mem_map.mp hmem with ⟨r0, hr0, heq⟩
      by_cases h0 : r0.speech_id = d.speech_id
      · rw [if_pos h0] at heq
        rw [← heq]
        rfl
      · rw [if_neg h0] at heq
        rw [← heq] at hid
        exact absurd hid h0
    · rename_i hany
      rcases List.mem_append.mp hmem with h | h
      · exfalso
        apply hany
        rw [List.any_eq_true]
        exact ⟨r2, h, decide_eq_true hid⟩
      · rw [List.mem_singleton.mp h]
        rfl

/-- Witness for the amended monotonicity theorem: a one-row table with a
classified row run through the whole pipeline, and the upsert conclusion
at the replacing row. -/
theorem classification_monotonic_amended_witness :
    exampleClassifiedRow ∈
      run_pipeline (fun _ => ("political debate", 0)) 1 [exampleClassifiedRow] ∧
    (rowOfData exampleData).is_procedure = Option.none :=
  ⟨classification_monotonic_amended.1 (fun _ => ("political debate", 0)) 1
     [exampleClassifiedRow] exampleClassifiedRow 1 (by decide)
     (List.mem_singleton.mpr rfl) rfl,
   classification_monotonic_amended.2 [exampleClassifiedRow] exampleData
     (rowOfData exampleData) (by decide) rfl⟩

/-! ## Claim C9: partisan share -/

theorem dedupKeysAux_subset :
    ∀ (l seen : List String) (s : String), s ∈ dedupKeysAux l seen → s ∈ l := by
  intro l
  induction l with
  | nil => intro seen s h; simp [dedupKeysAux] at h
  | cons k ks ih =>
    intro seen s h
    unfold dedupKeysAux at h
    split at h
    · exact List.mem_cons_of_mem k (ih _ s h)
    · rcases List.mem_cons.mp h with h | h
      · exact h ▸ List.mem_cons_self k ks
      · exact List.mem_cons_of_mem k (ih _ s h)

theorem filter_party_lengths (l : List SpeechRow)
    (hDR : ∀ r ∈ l, r.party = "D" ∨ r.party = "R") :
    (l.filter (fun r => r.party = "D")).length + (l.filter (fun r => r.party = "R")).length
      = l.length := by
  induction l with
  | nil => rfl
  | cons r rs ih =>
    have hrest := ih (fun r2 h2 => hDR r2 (List.mem_cons_of_mem r h2))
    rcases hDR r (List.mem_cons_self r rs) with h | h
    · have hR : ¬(r.party = "R") := by rw [h]; decide
      have e1 : (r :: rs).filter (fun r => r.party = "D")
          = r :: rs.filter (fun r => r.party = "D") := by
        simp [List.filter_cons, decide_eq_true h]
      have e2 : (r :: rs).filter (fun r => r.party = "R")
          = rs.filter (fun r => r.party = "R") := by
        simp [List.filter_cons, hR]
      rw [e1, e2, List.length_cons, List.length_cons]
      omega
    · have hD : ¬(r.party = "D") := by rw [h]; decide
      have e1 : (r :: rs).filter (fun r => r.party = "D")
          = rs.filter (fun r => r.party = "D") := by
        simp [List.filter_cons, hD]
      have e2 : (r :: rs).filter (fun r => r.party = "R")
          = r :: rs.filter (fun r => r.party = "R") := by
        simp [List.filter_cons, decide_eq_true h]
      rw [e1, e2, List.length_cons, List.length_cons]
      omega

/-- Claim C9: every group emitted by the partisan-share query counts only
rows with `party ∈ {D, R}` and `is_mapped = 1` — so its `total` is
`D_count + R_count` and is positive — and `rep_share = R_count / total`
lies in `[0, 1]`; on the 30-Democrat / 70-Republican scenario table the
single group has `D_count = 30`, `R_count = 70`, `total = 100` and
`rep_share = 0.7`. -/
theorem partisan_share_in_unit_interval :
    (∀ (t : List SpeechRow) (phrase : String) (g : ShareRow),
      g ∈ get_partisan_share t phrase →
      g.total = g.d_count + g.r_count ∧ 0 < g.total ∧
      g.rep_share = (g.r_count : ℚ) / (g.total : ℚ) ∧
      0 ≤ g.rep_share ∧ g.rep_share ≤ 1) ∧
    ((get_partisan_share shareTable "climate").map
      (fun g => (g.congress_session, g.d_count, g.r_count, g.total))
        = [("116", 30, 70, 100)]) ∧
    (∀ g ∈ get_partisan_share shareTable "climate", g.rep_share = 7 / 10) := by
  have hmain : ∀ (t : List SpeechRow) (phrase : String) (g : ShareRow),
      g ∈ get_partisan_share t phrase →
      g.total = g.d_count + g.r_count ∧ 0 < g.total ∧
      g.rep_share = (g.r_count : ℚ) / (g.total : ℚ) ∧
      0 ≤ g.rep_share ∧ g.rep_share ≤ 1 := by
    intro t phrase g hg
    unfold get_partisan_share at hg
    obtain ⟨s, hs, heq⟩ := List.mem_map.mp hg
    obtain ⟨r0, hr0, hr0s⟩ := List.mem_map.mp (dedupKeysAux_subset _ _ _ hs)
    have hr0g : r0 ∈ (t.filter (partisanRowFilter phrase)).filter
        (fun r => r.congress_session = s) :=
      List.mem_filter.mpr ⟨hr0, decide_eq_true hr0s⟩
    have hpos : 0 < ((t.filter (partisanRowFilter phrase)).filter
        (fun r => r.congress_session = s)).length :=
      List.length_pos.mpr (List.ne_nil_of_mem hr0g)
    have hDR : ∀ r ∈ (t.filter (partisanRowFilter phrase)).filter
        (fun r => r.congress_session = s), r.party = "D" ∨ r.party = "R" := by
      intro r hrmem
      have hrf : partisanRowFilter phrase r = true := by
        simpa using List.of_mem_filter (List.mem_of_mem_filter hrmem)
      unfold partisanRowFilter at hrf
      simp only [Bool.and_eq_true, Bool.or_eq_true, decide_eq_true_eq] at hrf
      exact hrf.2
    have hsum := filter_party_lengths _ hDR
    have htot : g.total = ((t.filter (partisanRowFilter phrase)).filter
        (fun r => r.congress_session = s)).length := by rw [← heq]; rfl
    have hd : g.d_count = (((t.filter (partisanRowFilter phrase)).filter
        (fun r => r.congress_session = s)).filter (fun r => r.party = "D")).length := by
      rw [← heq]; rfl
    have hr : g.r_count = (((t.filter (partisanRowFilter phrase)).filter
        (fun r => r.congress_session = s)).filter (fun r => r.party = "R")).length := by
      rw [← heq]; rfl
    have hshare : g.rep_share = ((((t.filter (partisanRowFilter phrase)).filter
        (fun r => r.congress_session = s)).filter (fun r => r.party = "R")).length : ℚ) /
        (((t.filter (partisanRowFilter phrase)).filter
          (fun r => r.congress_session = s)).length : ℚ) := by
      rw [← heq]; rfl
    refine ⟨by omega, by omega, by rw [hshare, hr, htot], ?_, ?_⟩
    · rw [hshare]
      exact div_nonneg (Nat.cast_nonneg _) (Nat.cast_nonneg _)
    · rw [hshare]
      rw [div_le_one (by exact_mod_cast hpos)]
      have hle : (((t.filter (partisanRowFilter phrase)).filter
          (fun r => r.congress_session = s)).filter (fun r => r.party = "R")).length ≤
          ((t.filter (partisanRowFilter phrase)).filter
            (fun r => r.congress_session = s)).length := by omega
      exact_mod_cast hle
  refine ⟨hmain, by decide, ?_⟩
  intro g hg
  have hfields : (g.congress_session, g.d_count, g.r_count, g.total) = ("116", 30, 70, 100) := by
    have hmap := List.mem_map_of_mem
      (fun g : ShareRow => (g.congress_session, g.d_count, g.r_count, g.total)) hg
    rw [show (get_partisan_share shareTable "climate").map
        (fun g => (g.congress_session, g.d_count, g.r_count, g.total))
          = [("116", 30, 70, 100)] by decide] at hmap
    simpa using hmap
  have hbounds := hmain shareTable "climate" g hg
  rw [hbounds.2.2.1]
  have h70 : g.r_count = 70 := by
    have := congrArg (fun p => p.2.2.1) hfields
    simpa using this
  have h100 : g.total = 100 := by
    have := congrArg (fun p => p.2.2.2) hfields
    simpa using this
  rw [h70, h100]
  norm_num

/-- Witness for the partisan-share theorem: the scenario table's single
group fed back through the theorem. -/
theorem partisan_share_in_unit_interval_witness :
    partisanGroupRow shareTable "climate" "116" ∈ get_partisan_share shareTable "climate" ∧
    (partisanGroupRow shareTable "climate" "116").total
      = (partisanGroupRow shareTable "climate" "116").d_count
        + (partisanGroupRow shareTable "climate" "116").r_count ∧
    0 < (partisanGroupRow shareTable "climate" "116").total ∧
    0 ≤ (partisanGroupRow shareTable "climate" "116").rep_share ∧
    (partisanGroupRow shareTable "climate" "116").rep_share ≤ 1 ∧
    (partisanGroupRow shareTable "climate" "116").rep_share = 7 / 10 := by
  have hmem : partisanGroupRow shareTable "climate" "116"
      ∈ get_partisan_share shareTable "climate" := by
    unfold get_partisan_share
    exact List.mem_map_of_mem (partisanGroupRow shareTable "climate")
      (by decide : "116" ∈ dedupKeys ((shareTable.filter
        (partisanRowFilter "climate")).map (fun r => r.congress_session)))
  have h1 := partisan_share_in_unit_interval.1 shareTable "climate" _ hmem
  have h2 := partisan_share_in_unit_interval.2.2 _ hmem
  exact ⟨hmem, h1.1, h1.2.1, h1.2.2.2.1, h1.2.2.2.2, h2⟩

/-! ## Claim C3: normalizer idempotence -/

theorem wsSingle_of_not_ws (c : Char) (h : pyIsSpace c = false) : wsSingle c = true := by
  simp [wsSingle, h]

theorem wsCollapseL_cons_not_ws (d : Char) (ds : List Char) (hd : pyIsSpace d = false) :
    wsCollapseL (d :: ds) = d :: wsCollapseL ds := by
  simp [wsCollapseL, hd]

theorem wsCollapseL_all_single : ∀ l : List Char, (wsCollapseL l).all wsSingle = true := by
  intro l
  induction l with
  | nil => rfl
  | cons c cs ih =>
    by_cases hc : pyIsSpace c
    · cases cs with
      | nil =>
        rw [show wsCollapseL [c] = [' '] by simp [wsCollapseL, hc]]
        decide
      | cons d ds =>
        by_cases hd : pyIsSpace d
        · rw [show wsCollapseL (c :: d :: ds) = wsCollapseL (d :: ds) by
            simp [wsCollapseL, hc, hd]]
          exact ih
        · rw [show wsCollapseL (c :: d :: ds) = ' ' :: wsCollapseL (d :: ds) by
            simp [wsCollapseL, hc, hd]]
          rw [List.all_cons, ih]
          decide
    · rw [wsCollapseL_cons_not_ws c cs (by simpa using hc)]
      rw [List.all_cons, ih, wsSingle_of_not_ws c (by simpa using hc)]
      rfl

theorem noWsPair_tail (c : Char) (cs : List Char) (h : noWsPair (c :: cs) = true) :
    noWsPair cs = true := by
  cases cs with
  | nil => rfl
  | cons d ds =>
    simp only [noWsPair, Bool.and_eq_true] at h
    exact h.2

theorem noWsPair_cons_of (c : Char) (l : List Char) (h1 : noWsPair l = true)
    (h2 : ∀ d rest, l = d :: rest → (pyIsSpace c && pyIsSpace d) = false) :
    noWsPair (c :: l) = true := by
  cases l with
  | nil => rfl
  | cons d rest =>
    simp only [noWsPair, Bool.and_eq_true]
    exact ⟨by rw [h2 d rest rfl]; rfl, h1⟩

theorem wsCollapseL_noWsPair : ∀ l : List Char, noWsPair (wsCollapseL l) = true := by
  intro l
  induction l with
  | nil => rfl
  | cons c cs ih =>
    by_cases hc : pyIsSpace c
    · cases cs with
      | nil =>
        rw [show wsCollapseL [c] = [' '] by simp [wsCollapseL, hc]]
        rfl
      | cons d ds =>
        by_cases hd : pyIsSpace d
        · rw [show wsCollapseL (c :: d :: ds) = wsCollapseL (d :: ds) by
            simp [wsCollapseL, hc, hd]]
          exact ih
        · have hcoll : wsCollapseL (c :: d :: ds) = ' ' :: d :: wsCollapseL ds := by
            rw [show wsCollapseL (c :: d :: ds) = ' ' :: wsCollapseL (d :: ds) by
              simp [wsCollapseL, hc, hd]]
            rw [wsCollapseL_cons_not_ws d ds (by simpa using hd)]
          rw [hcoll]
          apply noWsPair_cons_of
          · rw [← wsCollapseL_cons_not_ws d ds (by simpa using hd)]
            exact ih
          · intro e rest heq
            have he : e = d := by
              injection heq with h1 _
              exact h1.symm
            rw [he]
            simp [hd]
    · rw [wsCollapseL_cons_not_ws c cs (by simpa using hc)]
      apply noWsPair_cons_of
      · exact ih
      · intro d rest _
        simp [hc]

theorem wsCollapseL_noop : ∀ l : List Char,
    l.all wsSingle = true → noWsPair l = true → wsCollapseL l = l := by
  intro l
  induction l with
  | nil => intro _ _; rfl
  | cons c cs ih =>
    intro hall hpair
    simp only [List.all_cons, Bool.and_eq_true] at hall
    by_cases hc : pyIsSpace c
    · have hc2 : c = ' ' := by
        have h1 := hall.1
        simp only [wsSingle, hc, Bool.not_true, Bool.false_or, decide_eq_true_eq] at h1
        exact h1
      cases cs with
      | nil => rw [hc2]; rfl
      | cons d ds =>
        have hd : pyIsSpace d = false := by
          have hp : noWsPair (c :: d :: ds)
              = (!(pyIsSpace c && pyIsSpace d) && noWsPair (d :: ds)) := rfl
          rw [hp, Bool.and_eq_true, Bool.not_eq_true'] at hpair
          have h2 := hpair.1
          rwa [hc, Bool.true_and] at h2
        rw [show wsCollapseL (c :: d :: ds) = ' ' :: wsCollapseL (d :: ds) by
          simp [wsCollapseL, hc, hd]]
        rw [hc2]
        congr 1
        exact ih hall.2 (noWsPair_tail _ _ hpair)
    · rw [wsCollapseL_cons_not_ws c cs (by simpa using hc)]
      congr 1
      exact ih hall.2 (noWsPair_tail _ _ hpair)

theorem dropTrailWs_cons_keep (c : Char) (cs : List Char)
    (h : ¬(dropTrailWs cs = [] ∧ pyIsSpace c)) :
    dropTrailWs (c :: cs) = c :: dropTrailWs cs := by
  by_cases h1 : dropTrailWs cs = []
  · have h2 : pyIsSpace c = false := by
      by_contra hc
      exact h ⟨h1, by simpa using hc⟩
    simp [dropTrailWs, h1, h2]
  · simp [dropTrailWs, h1]

theorem dropTrailWs_sublist : ∀ l : List Char, List.Sublist (dropTrailWs l) l := by
  intro l
  induction l with
  | nil => exact List.Sublist.refl []
  | cons c cs ih =>
    by_cases h : dropTrailWs cs = [] ∧ pyIsSpace c
    · rw [show dropTrailWs (c :: cs) = [] by simp [dropTrailWs, h.1, h.2]]
      exact List.nil_sublist _
    · rw [dropTrailWs_cons_keep c cs h]
      exact List.Sublist.cons₂ c ih

theorem all_pyStripL (q : Char → Bool) (l : List Char) (h : l.all q = true) :
    (pyStripL l).all q = true := by
  rw [List.all_eq_true] at h ⊢
  intro x hx
  have hsub : List.Sublist (pyStripL l) l :=
    List.Sublist.trans (dropTrailWs_sublist (l.dropWhile pyIsSpace))
      (List.dropWhile_sublist pyIsSpace)
  exact h x (hsub.subset hx)

theorem noWsPair_dropWhile (l : List Char) (h : noWsPair l = true) :
    noWsPair (l.dropWhile pyIsSpace) = true := by
  induction l with
  | nil => exact h
  | cons c cs ih =>
    rw [List.dropWhile_cons]
    split
    · exact ih (noWsPair_tail _ _ h)
    · exact h

theorem dropTrailWs_head_eq (d : Char) (ds : List Char) :
    dropTrailWs (d :: ds) = [] ∨ ∃ r, dropTrailWs (d :: ds) = d :: r := by
  by_cases h : dropTrailWs ds = [] ∧ pyIsSpace d
  · exact Or.inl (by simp [dropTrailWs, h.1, h.2])
  · exact Or.inr ⟨dropTrailWs ds, dropTrailWs_cons_keep d ds h⟩

theorem noWsPair_dropTrailWs (l : List Char) (h : noWsPair l = true) :
    noWsPair (dropTrailWs l) = true := by
  induction l with
  | nil => exact h
  | cons c cs ih =>
    by_cases hif : dropTrailWs cs = [] ∧ pyIsSpace c
    · rw [show dropTrailWs (c :: cs) = [] by simp [dropTrailWs, hif.1, hif.2]]
      rfl
    · rw [dropTrailWs_cons_keep c cs hif]
      apply noWsPair_cons_of
      · exact ih (noWsPair_tail _ _ h)
      · intro d rest heq
        cases cs with
        | nil => simp [dropTrailWs] at heq
        | cons e es =>
          rcases dropTrailWs_head_eq e es with h0 | ⟨r, hr⟩
          · rw [h0] at heq; cases heq
          · rw [hr] at heq
            injection heq with h1 _
            rw [← h1]
            have hp : noWsPair (c :: e :: es)
                = (!(pyIsSpace c && pyIsSpace e) && noWsPair (e :: es)) := rfl
            rw [hp, Bool.and_eq_true, Bool.not_eq_true'] at h
            exact h.1

theorem noWsPair_pyStripL (l : List Char) (h : noWsPair l = true) :
    noWsPair (pyStripL l) = true :=
  noWsPair_dropTrailWs _ (noWsPair_dropWhile _ h)

theorem pyStrip_wsNormalize (x : String) : pyStrip (wsNormalize x) = wsNormalize x := by
  show (⟨pyStripL (pyStripL (wsCollapseL x.data))⟩ : String)
    = ⟨pyStripL (wsCollapseL x.data)⟩
  rw [pyStripL_idem]

theorem wsNormalize_idem (x : String) : wsNormalize (wsNormalize x) = wsNormalize x := by
  show (⟨pyStripL (wsCollapseL (pyStripL (wsCollapseL x.data)))⟩ : String)
    = ⟨pyStripL (wsCollapseL x.data)⟩
  rw [wsCollapseL_noop (pyStripL (wsCollapseL x.data))
    (all_pyStripL wsSingle _ (wsCollapseL_all_single _))
    (noWsPair_pyStripL _ (wsCollapseL_noWsPair _))]
  rw [pyStripL_idem]

/-- Claim C3, counterexample: cleaning `"a [Senate] b"` removes the
chamber tag and leaves the double space `"a  b"`, which a second cleaning
collapses to `"a b"` — the normalizer is not idempotent. -/
theorem clean_text_not_idempotent :
    clean_speech_text "a [Senate] b" = "a  b" ∧
    clean_speech_text (clean_speech_text "a [Senate] b") = "a b" ∧
    clean_speech_text (clean_speech_text "a [Senate] b") ≠ clean_speech_text "a [Senate] b" := by
  decide

/-- Claim C3, amended: `clean_speech_text` is not idempotent in general —
a removal can leave a doubled space (or newly adjacent boilerplate) that
only a further pass cleans — but it is idempotent on every input on which
all pattern-removal steps and the leading-junk strip are no-ops after the
initial whitespace collapse-and-trim. -/
theorem clean_text_idempotent_when_no_removal (x : String)
    (hA : runSub matchVolHeader (wsNormalize x) = wsNormalize x)
    (hB : runSub matchChamberTag (wsNormalize x) = wsNormalize x)
    (hC : runSub matchPageTag (wsNormalize x) = wsNormalize x)
    (hD : runSub matchDateParen (wsNormalize x) = wsNormalize x)
    (hE : runSub matchFooter (wsNormalize x) = wsNormalize x)
    (hF : dropLeadJunk (wsNormalize x) = wsNormalize x)
    (hG : runSub matchDoubleRBracket (wsNormalize x) = wsNormalize x) :
    clean_speech_text (clean_speech_text x) = clean_speech_text x := by
  have hclean : clean_speech_text x = wsNormalize x := by
    show pyStrip (runSub matchDoubleRBracket (pyStrip (dropLeadJunk (runSub matchFooter
      (runSub matchDateParen (runSub matchPageTag (runSub matchChamberTag
        (runSub matchVolHeader (wsNormalize x))))))))) = wsNormalize x
    rw [hA, hB, hC, hD, hE, hF, pyStrip_wsNormalize, hG, pyStrip_wsNormalize]
  rw [hclean]
  show pyStrip (runSub matchDoubleRBracket (pyStrip (dropLeadJunk (runSub matchFooter
    (runSub matchDateParen (runSub matchPageTag (runSub matchChamberTag
      (runSub matchVolHeader (wsNormalize (wsNormalize x)))))))))) = wsNormalize x
  rw [wsNormalize_idem]
  rw [hA, hB, hC, hD, hE, hF, pyStrip_wsNormalize, hG, pyStrip_wsNormalize]

/-- Witness for the amended idempotence theorem: a plain sentence on
which every removal step is a no-op. -/
theorem clean_text_idempotent_when_no_removal_witness :
    clean_speech_text (clean_speech_text "hello world") = clean_speech_text "hello world" :=
  clean_text_idempotent_when_no_removal "hello world" (by decide) (by decide) (by decide)
    (by decide) (by decide) (by decide) (by decide)

end CongressSpeech
